import Mathlib

/-!
Verification of the effect-queueing reducer core (useEffectReducer).

The development shallowly embeds `src/index.tsx`:

* `Entity` models the mutable effect-entity object created by
  `createEffectEntity`, with instrumentation counters `execRuns` and
  `cleanupRuns` observing how many times the underlying `exec` function and
  the captured cleanup closure were invoked.  User effect implementations are
  abstracted by `ExecFn`: an identity tag plus whether the function throws
  synchronously and whether it returns a cleanup function.
* `toEffectObject` / `toEventObject` embed the two normalizers.
* `Aggregate` and `wrappedReducer` embed the aggregated reducer state
  `[state, effectStateTuples, entitiesToStop, layoutEffectStateTuples,
  layoutEntitiesToStop]` and the wrapped reducer, with the user reducer
  modelled as a pure function returning its next state together with the
  ordered list of `exec` / `exec.stop` / `exec.replace` / `exec.layout`
  calls it performed.
* `DriverState` with `startEntityAt` / `startTupleEntities` / `startPhase` /
  `runStartPasses` embed the commit-phase driver's start phase (the
  `useEffect` at the end of `useEffectReducer`), heap sharing of entities
  being modelled by a store of entities addressed by index.
* `initialStateAndEffects` embeds the `useMemo` initialization, and
  `teardown` the unmount effect that stops all still-`Started` entities.
-/

/-- Status of an effect entity, from `enum EntityStatus`. -/
inductive EntityStatus
  | Idle
  | Started
  | Stopped
  deriving DecidableEq, Repr

/-- Abstraction of a user effect implementation (an `exec` function value):
`id` is the function's identity, `throws` says whether invoking it throws
synchronously, `returnsCleanup` whether it returns a cleanup function. -/
structure ExecFn where
  id : Nat
  throws : Bool
  returnsCleanup : Bool
  deriving DecidableEq, Repr

/-- The mutable effect entity of `createEffectEntity`, plus the closure
variable `effectCleanup` (as `cleanup : Bool`, whether a callable cleanup is
currently captured) and instrumentation counters. -/
structure Entity where
  type : String
  isLayout : Bool
  status : EntityStatus
  exec : Option ExecFn
  cleanup : Bool
  execRuns : Nat
  cleanupRuns : Nat
  deriving DecidableEq, Repr

/-- `entity.start(state, dispatch)`: if `effect.exec` is present it is invoked
(`execRuns` bumps); if it throws, the exception propagates (`true` in the
second component) and neither the `effectCleanup` assignment nor the
`entity.status = Started` line is reached; otherwise the returned cleanup is
captured and the status is set to `Started`.  There is no status guard here:
the guard lives in the commit-phase driver. -/
def Entity.start (e : Entity) (_state : Nat) : Entity × Bool :=
  match e.exec with
  | some f =>
    let e1 : Entity := { e with execRuns := e.execRuns + 1 }
    if f.throws then (e1, true)
    else ({ e1 with cleanup := f.returnsCleanup, status := EntityStatus.Started }, false)
  | none => ({ e with status := EntityStatus.Started }, false)

/-- `entity.stop()`: if a callable cleanup is captured it is invoked (the
captured closure is not cleared and no status is checked), then the status is
set to `Stopped`. -/
def Entity.stop (e : Entity) : Entity :=
  let e1 : Entity := if e.cleanup then { e with cleanupRuns := e.cleanupRuns + 1 } else e
  { e1 with status := EntityStatus.Stopped }

/-- Iterated `entity.stop()` calls. -/
def stopTimes (e : Entity) : Nat → Entity
  | 0 => e
  | n + 1 => stopTimes e.stop n

/-- Record-form effect descriptor `{ type, ...payload, exec? }`; `isLayout`
models the symbol-keyed layout flag, `payload` the remaining fields. -/
structure EffectRecord where
  type : String
  exec : Option ExecFn
  isLayout : Bool
  payload : List String
  deriving DecidableEq, Repr

/-- An effect descriptor: a bare function (whose `.name` is its identifier, the
empty string when anonymous) or a record. -/
inductive EffectDescriptor
  | fn (name : String) (f : ExecFn)
  | record (r : EffectRecord)
  deriving DecidableEq, Repr

/-- The normalized internal effect object produced by `toEffectObject`. -/
structure InternalEffectObject where
  type : String
  exec : Option ExecFn
  isLayout : Bool
  payload : List String
  deriving DecidableEq, Repr

/-- An effects map is a finite map from effect type to implementation. -/
abbrev EffectsMap := List (String × ExecFn)

/-- `effectsMap ? effectsMap[type] : undefined`. -/
def mapLookup (m : Option EffectsMap) (t : String) : Option ExecFn :=
  match m with
  | none => none
  | some l => l.lookup t

/-- The `toEffectObject` normalizer: `type` is the function's name or the
record's `type`; the layout flag comes from the record (a bare function is
never layout-tagged); `exec` is `customExec || (function ? function :
record.exec)` where `customExec` is the effects-map lookup at `type`. -/
def toEffectObject (effect : EffectDescriptor) (effectsMap : Option EffectsMap) :
    InternalEffectObject :=
  let type := match effect with
    | .fn name _ => name
    | .record r => r.type
  let layoutEffect := match effect with
    | .fn _ _ => false
    | .record r => r.isLayout
  let customExec := mapLookup effectsMap type
  let exec := match customExec with
    | some c => some c
    | none =>
      match effect with
      | .fn _ f => some f
      | .record r => r.exec
  let other := match effect with
    | .fn _ _ => []
    | .record r => r.payload
  { type := type, exec := exec, isLayout := layoutEffect, payload := other }

/-- `createEffectEntity(effect)`: a fresh entity in `Idle` status with no
captured cleanup. -/
def createEffectEntity (effect : InternalEffectObject) : Entity :=
  { type := effect.type
    isLayout := effect.isLayout
    status := EntityStatus.Idle
    exec := effect.exec
    cleanup := false
    execRuns := 0
    cleanupRuns := 0 }

/-- An event object `{ type, ...payload }`. -/
structure EventObject where
  type : String
  payload : List (String × Nat)
  deriving DecidableEq, Repr

/-- The argument of `dispatch`: a bare type string or an event object. -/
inductive EventInput
  | str (s : String)
  | obj (e : EventObject)
  deriving DecidableEq, Repr

/-- The `toEventObject` normalizer: a bare string `s` becomes `{ type: s }`; an
event object passes through unchanged. -/
def toEventObject : EventInput → EventObject
  | .str s => { type := s, payload := [] }
  | .obj e => e

/-- The aggregated effects state `AggregatedEffectsState`:
`[state, effectStateTuples, entitiesToStop, layoutEffectStateTuples,
layoutEntitiesToStop]`. -/
structure Aggregate (S : Type) where
  state : S
  effectStateTuples : List (S × List Entity)
  entitiesToStop : List Entity
  layoutEffectStateTuples : List (S × List Entity)
  layoutEntitiesToStop : List Entity
  deriving DecidableEq, Repr

/-- One call the user reducer makes on the `exec` capability: `exec(effect)`,
`exec.layout(effect)`, `exec.stop(entity)` or `exec.replace(entity?, effect)`. -/
inductive ExecCmd
  | run (d : EffectDescriptor)
  | runLayout (d : EffectDescriptor)
  | stopEnt (e : Entity)
  | replaceEnt (e : Option Entity) (d : EffectDescriptor)
  deriving DecidableEq, Repr

/-- A user effect reducer, modelled as a pure function from state and event to
the next state and the ordered list of capability calls it performed. -/
def UserReducer (S : Type) := S → EventObject → S × List ExecCmd

/-- The four local accumulator arrays of one `wrappedReducer` call:
`nextEffectEntities`, `nextEntitiesToStop`, `nextLayoutEffectEntities`,
`nextLayoutEntitiesToStop`. -/
structure ExecAcc where
  nextEffectEntities : List Entity
  nextEntitiesToStop : List Entity
  nextLayoutEffectEntities : List Entity
  nextLayoutEntitiesToStop : List Entity
  deriving DecidableEq, Repr

/-- `exec.layout(effect)` first normalizes, then re-enters `exec` with the
spread `{ ...effectObject, [layoutEffectsSymbol]: true }` record. -/
def layoutSpread (m : Option EffectsMap) (d : EffectDescriptor) : EffectDescriptor :=
  let obj := toEffectObject d m
  .record { type := obj.type, exec := obj.exec, isLayout := true, payload := obj.payload }

/-- The body of the `exec` capability closure of `wrappedReducer`:
`exec(effect)` normalizes the descriptor, creates an effect entity and pushes
it on the (layout or normal) local started list, returning it to the caller. -/
def execRun (m : Option EffectsMap) (acc : ExecAcc) (d : EffectDescriptor) : ExecAcc :=
  let effectObject := toEffectObject d m
  let effectEntity := createEffectEntity effectObject
  if effectObject.isLayout then
    { acc with nextLayoutEffectEntities := acc.nextLayoutEffectEntities ++ [effectEntity] }
  else
    { acc with nextEffectEntities := acc.nextEffectEntities ++ [effectEntity] }

/-- `exec.stop(entity)`: push the entity on the (layout or normal) local stop
list; disposal is deferred to the driver's commit phase. -/
def execStop (acc : ExecAcc) (e : Entity) : ExecAcc :=
  if e.isLayout then
    { acc with nextLayoutEntitiesToStop := acc.nextLayoutEntitiesToStop ++ [e] }
  else
    { acc with nextEntitiesToStop := acc.nextEntitiesToStop ++ [e] }

/-- Dispatch one capability call to `execRun` / `execStop`. -/
def applyCmd (m : Option EffectsMap) (acc : ExecAcc) : ExecCmd → ExecAcc
  | .run d => execRun m acc d
  | .runLayout d => execRun m acc (layoutSpread m d)
  | .stopEnt e => execStop acc e
  | .replaceEnt none d => execRun m acc d
  | .replaceEnt (some e) d => execRun m (execStop acc e) d

/-- An event reaching `wrappedReducer`: a user event or the internal
`{ type: flushEffectsSymbol, count }` flush event. -/
inductive WEvent
  | user (e : EventObject)
  | flush (count : Nat)
  deriving DecidableEq, Repr

/-- The wrapped reducer.  On the flush event it keeps the state, drops the
first `count` entries of both pending-start tuple lists (`.slice(count)`), and
returns the fresh empty stop lists.  Otherwise it runs the user reducer with a
fresh `exec` capability and appends the locally collected entities: a new
`(nextState, startedThisCall)` tuple only when `startedThisCall` is non-empty,
and the new stop entities after the old ones (the source's
`entitiesToStop.length ? [...entitiesToStop, ...next] : next`). -/
def wrappedReducer {S : Type} (effectReducer : UserReducer S) (effectsMap : Option EffectsMap)
    (agg : Aggregate S) : WEvent → Aggregate S
  | .flush count =>
    { state := agg.state
      effectStateTuples := agg.effectStateTuples.drop count
      entitiesToStop := []
      layoutEffectStateTuples := agg.layoutEffectStateTuples.drop count
      layoutEntitiesToStop := [] }
  | .user event =>
    let res := effectReducer agg.state event
    let nextState := res.1
    let acc := res.2.foldl (applyCmd effectsMap) ⟨[], [], [], []⟩
    { state := nextState
      effectStateTuples :=
        if acc.nextEffectEntities.isEmpty then agg.effectStateTuples
        else agg.effectStateTuples ++ [(nextState, acc.nextEffectEntities)]
      entitiesToStop :=
        if agg.entitiesToStop.isEmpty then acc.nextEntitiesToStop
        else agg.entitiesToStop ++ acc.nextEntitiesToStop
      layoutEffectStateTuples :=
        if acc.nextLayoutEffectEntities.isEmpty then agg.layoutEffectStateTuples
        else agg.layoutEffectStateTuples ++ [(nextState, acc.nextLayoutEffectEntities)]
      layoutEntitiesToStop :=
        if agg.layoutEntitiesToStop.isEmpty then acc.nextLayoutEntitiesToStop
        else agg.layoutEntitiesToStop ++ acc.nextLayoutEntitiesToStop }

/-- `wrappedDispatch(event)` = `dispatch(toEventObject(event))`: the dispatch
step seen from the outside, one reduction of the wrapped reducer on the
normalized event. -/
def wrappedDispatch {S : Type} (effectReducer : UserReducer S) (effectsMap : Option EffectsMap)
    (agg : Aggregate S) (event : EventInput) : Aggregate S :=
  wrappedReducer effectReducer effectsMap agg (.user (toEventObject event))

/-- A function-form initial state: the ordered descriptors it passes to the
initialization `exec`, and the state it returns (which may look at the
entities `exec` returned, in call order). -/
structure InitGetter (S : Type) where
  descriptors : List EffectDescriptor
  mkState : List Entity → S

/-- The `initialState` argument: a literal state or a getter function. -/
inductive InitialArg (S : Type)
  | literal (s : S)
  | getter (g : InitGetter S)

/-- One step of the initialization `exec`: accumulators are
`(initialEffectEntities, initialLayoutEffectEntities, entities returned so
far)`; the created entity is routed by its layout flag and returned. -/
def initStep (m : Option EffectsMap) (acc : List Entity × List Entity × List Entity)
    (d : EffectDescriptor) : List Entity × List Entity × List Entity :=
  let effectObject := toEffectObject d m
  let effectEntity := createEffectEntity effectObject
  if effectObject.isLayout then
    (acc.1, acc.2.1 ++ [effectEntity], acc.2.2 ++ [effectEntity])
  else
    (acc.1 ++ [effectEntity], acc.2.1, acc.2.2 ++ [effectEntity])

/-- The `useMemo` initialization: a getter runs with the initialization `exec`
and yields `[resolved, [[resolved, initialEffectEntities]], [],
[[resolved, initialLayoutEffectEntities]], []]` (both singleton tuples are
pushed even when no effect was queued); a literal yields
`[initialState, [], [], [], []]`. -/
def initialStateAndEffects {S : Type} (m : Option EffectsMap) :
    InitialArg S → Aggregate S
  | .literal s => ⟨s, [], [], [], []⟩
  | .getter g =>
    let acc := g.descriptors.foldl (initStep m) ([], [], [])
    let resolvedInitialState := g.mkState acc.2.2
    ⟨resolvedInitialState,
      [(resolvedInitialState, acc.1)],
      [],
      [(resolvedInitialState, acc.2.1)],
      []⟩

/-- The driver's view of the world: the entity heap (entities addressed by
index, so that the pending tuples and the tracking set alias the same mutable
objects) and the `entitiesRef` tracking set. -/
structure DriverState where
  store : List Entity
  tracked : List Nat
  deriving DecidableEq, Repr

/-- `Set.add`: insert an index into the tracking set. -/
def trackAdd (l : List Nat) (i : Nat) : List Nat :=
  if i ∈ l then l else l ++ [i]

/-- One iteration of the driver's start phase on one entity: entities whose
status is not `Idle` are skipped (`if (entity.status !== EntityStatus.Idle)
return`), otherwise the entity is added to the tracking set and
`entity.start(effectState, dispatch)` runs; the second component records a
synchronously thrown exception, which aborts the surrounding iteration. -/
def startEntityAt (d : DriverState) (snapshot : Nat) (i : Nat) : DriverState × Bool :=
  match d.store[i]? with
  | none => (d, false)
  | some e =>
    if e.status ≠ EntityStatus.Idle then (d, false)
    else
      let d1 : DriverState := { d with tracked := trackAdd d.tracked i }
      let r := e.start snapshot
      ({ d1 with store := d1.store.set i r.1 }, r.2)

/-- The inner `effectEntities.forEach` of the driver's start phase over one
pending tuple; a thrown exception propagates and aborts the rest. -/
def startTupleEntities (d : DriverState) (snapshot : Nat) : List Nat → DriverState × Bool
  | [] => (d, false)
  | i :: rest =>
    if (startEntityAt d snapshot i).2 then ((startEntityAt d snapshot i).1, true)
    else startTupleEntities (startEntityAt d snapshot i).1 snapshot rest

/-- The driver's start phase: `effectStateEntityTuples.forEach(([effectState,
effectEntities]) => ...)`. -/
def startPhase (d : DriverState) : List (Nat × List Nat) → DriverState × Bool
  | [] => (d, false)
  | t :: rest =>
    if (startTupleEntities d t.1 t.2).2 then ((startTupleEntities d t.1 t.2).1, true)
    else startPhase (startTupleEntities d t.1 t.2).1 rest

/-- Several driver start-phase passes in sequence (the same pending tuples may
be observed by more than one pass before the flush event is processed). -/
def runStartPasses (d : DriverState) : List (List (Nat × List Nat)) → DriverState × Bool
  | [] => (d, false)
  | pass :: rest =>
    if (startPhase d pass).2 then ((startPhase d pass).1, true)
    else runStartPasses (startPhase d pass).1 rest

/-- The unmount effect: every entity of the tracking set still in `Started`
status is stopped. -/
def teardown (entities : List Entity) : List Entity :=
  entities.map (fun e => if e.status = EntityStatus.Started then e.stop else e)

/-! Concrete sample values used by counterexamples and witnesses. -/

/-- A non-throwing effect implementation that returns a cleanup function. -/
def fCleanup : ExecFn := ⟨1, false, true⟩

/-- An effect implementation that throws synchronously. -/
def fThrow : ExecFn := ⟨2, true, false⟩

/-- A started entity whose exec returned a cleanup function. -/
def eStarted : Entity :=
  ((createEffectEntity ⟨"t", some fCleanup, false, []⟩).start 0).1

/-- An idle entity whose exec throws synchronously. -/
def eThrowIdle : Entity := createEffectEntity ⟨"t", some fThrow, false, []⟩

/-- A sample idle entity with no exec. -/
def entA : Entity := createEffectEntity ⟨"a", none, false, []⟩

/-- A second sample idle entity. -/
def entB : Entity := createEffectEntity ⟨"b", none, false, []⟩

/-- A user reducer that changes nothing and requests no effects. -/
def rId : UserReducer Nat := fun s _ => (s, [])

/-- An aggregate with two entities pending disposal. -/
def aggStops : Aggregate Nat := ⟨0, [], [entA, entB], [], []⟩

/-- An initializer that queues no initial effects and returns state 7. -/
def g0 : InitGetter Nat := ⟨[], fun _ => 7⟩

/-- C2: the claim says a second `stop()` is a no-op because the cleanup is
cleared/guarded or the status is checked; in the code nothing is cleared or
checked, so two `stop()` calls on a started entity with a captured cleanup run
the cleanup twice, not once. -/
theorem C2_counterexample :
    (stopTimes eStarted 2).cleanupRuns ≠ 1 ∧ (stopTimes eStarted 2).cleanupRuns = 2 := by
  decide

/-- C2 (amended): calling `stop()` n times on an entity with a captured
cleanup invokes the cleanup closure once per call — n times in total, not at
most once (the captured closure is never cleared and no status is checked);
the status ends `Stopped` whenever n ≥ 1. -/
theorem C2_amended (e : Entity) (n : Nat) (hcl : e.cleanup = true) :
    (stopTimes e n).cleanupRuns = e.cleanupRuns + n ∧ (stopTimes e n).cleanup = true ∧
      (1 ≤ n → (stopTimes e n).status = EntityStatus.Stopped) := by
  induction n generalizing e with
  | zero => simp [stopTimes, hcl]
  | succ n ih =>
    have hstop : e.stop = { e with cleanupRuns := e.cleanupRuns + 1, status := EntityStatus.Stopped } := by
      simp [Entity.stop, hcl]
    have h2 := ih e.stop (by simp [Entity.stop, hcl])
    refine ⟨?_, ?_, fun _ => ?_⟩
    · rw [stopTimes, h2.1, hstop]
      show e.cleanupRuns + 1 + n = e.cleanupRuns + (n + 1)
      omega
    · rw [stopTimes, h2.2.1]
    · rcases Nat.eq_zero_or_pos n with hn | hn
      · subst hn
        rw [stopTimes, stopTimes, hstop]
      · rw [stopTimes, h2.2.2 hn]

/-- C2 (amended) witness at a concrete started entity and n = 2. -/
theorem C2_amended_witness :
    eStarted.cleanup = true ∧
      ((stopTimes eStarted 2).cleanupRuns = eStarted.cleanupRuns + 2 ∧
        (stopTimes eStarted 2).cleanup = true ∧
        (1 ≤ 2 → (stopTimes eStarted 2).status = EntityStatus.Stopped)) :=
  ⟨by decide, C2_amended eStarted 2 (by decide)⟩

/-- C3: the claim says `entity.start` on a non-`Idle` entity is a no-op that
does not invoke `exec`; in the code `entity.start` has no status guard, so it
invokes `exec` again on a `Started` entity. -/
theorem C3_counterexample :
    eStarted.status ≠ EntityStatus.Idle ∧
      (eStarted.start 0).1.execRuns = eStarted.execRuns + 1 := by
  decide

/-- C3 (amended): the no-op guard lives in the commit-phase driver, not in the
entity: the driver's start phase leaves an entity whose status is not `Idle`
(and the whole driver state) unchanged and does not invoke its `exec`;
`entity.start` itself re-invokes `exec` when called directly on a non-idle
entity. -/
theorem C3_amended (d : DriverState) (s i : Nat) (e : Entity)
    (hget : d.store[i]? = some e) (h : e.status ≠ EntityStatus.Idle) :
    startEntityAt d s i = (d, false) := by
  simp [startEntityAt, hget, h]

/-- C3 (amended) witness: the driver skips a concrete started entity. -/
theorem C3_amended_witness :
    (DriverState.mk [eStarted] []).store[0]? = some eStarted ∧
      eStarted.status ≠ EntityStatus.Idle ∧
      startEntityAt (DriverState.mk [eStarted] []) 5 0 = (DriverState.mk [eStarted] [], false) :=
  ⟨rfl, by decide, C3_amended (DriverState.mk [eStarted] []) 5 0 eStarted rfl (by decide)⟩

/-- C5: the claim says a synchronously throwing `exec` leaves the entity in
`Started` status; in the code `entity.status = Started` is only assigned after
`exec` returns, so the entity stays `Idle`. -/
theorem C5_counterexample :
    (eThrowIdle.start 0).2 = true ∧
      (eThrowIdle.start 0).1.status ≠ EntityStatus.Started ∧
      (eThrowIdle.start 0).1.status = EntityStatus.Idle := by
  decide

/-- C5 (amended): if `exec` throws synchronously during `entity.start`, the
exception propagates (the throw flag is set), the entity remains in `Idle`
status (the status assignment is never reached) with no captured cleanup, and
a later `stop()` runs no cleanup. -/
theorem C5_amended (e : Entity) (f : ExecFn) (s : Nat) (hexec : e.exec = some f)
    (hthrow : f.throws = true) (hstatus : e.status = EntityStatus.Idle)
    (hcl : e.cleanup = false) :
    (e.start s).2 = true ∧ (e.start s).1.status = EntityStatus.Idle ∧
      (e.start s).1.cleanup = false ∧
      ((e.start s).1.stop).cleanupRuns = e.cleanupRuns := by
  simp [Entity.start, hexec, hthrow, hstatus, Entity.stop, hcl]

/-- C5 (amended) witness at a concrete throwing entity. -/
theorem C5_amended_witness :
    (eThrowIdle.exec = some fThrow ∧ fThrow.throws = true ∧
        eThrowIdle.status = EntityStatus.Idle ∧ eThrowIdle.cleanup = false) ∧
      ((eThrowIdle.start 3).2 = true ∧ (eThrowIdle.start 3).1.status = EntityStatus.Idle ∧
        (eThrowIdle.start 3).1.cleanup = false ∧
        ((eThrowIdle.start 3).1.stop).cleanupRuns = eThrowIdle.cleanupRuns) :=
  ⟨⟨by decide, by decide, by decide, by decide⟩,
    C5_amended eThrowIdle fThrow 3 (by decide) (by decide) (by decide) (by decide)⟩

/-- C4: the claim says the flush event truncates `pendingStopEntities` by the
carried count, removing only the first N entries; in the code the flush branch
returns the fresh empty `nextEntitiesToStop` array, clearing the stop queue
unconditionally. -/
theorem C4_counterexample :
    (wrappedReducer rId none aggStops (.flush 1)).entitiesToStop ≠
      aggStops.entitiesToStop.drop 1 ∧
      (wrappedReducer rId none aggStops (.flush 1)).entitiesToStop = [] := by
  decide

/-- C4 (amended): on the internal flush event with count N the wrapped reducer
leaves the domain state unchanged and truncates `pendingStartTuples` by N
(removing only the first N already-handed-off tuples, so start tuples queued
after the driver read the list are preserved), but it clears both
`pendingStopEntities` queues unconditionally rather than truncating them. -/
theorem C4_amended {S : Type} (r : UserReducer S) (m : Option EffectsMap)
    (agg : Aggregate S) (N : Nat) :
    (wrappedReducer r m agg (.flush N)).state = agg.state ∧
      (wrappedReducer r m agg (.flush N)).effectStateTuples =
        agg.effectStateTuples.drop N ∧
      (wrappedReducer r m agg (.flush N)).entitiesToStop = [] ∧
      (wrappedReducer r m agg (.flush N)).layoutEffectStateTuples =
        agg.layoutEffectStateTuples.drop N ∧
      (wrappedReducer r m agg (.flush N)).layoutEntitiesToStop = [] :=
  ⟨rfl, rfl, rfl, rfl, rfl⟩

/-- C9: a flush event carrying count N slices both the normal and the layout
pending-start queue by the same N and replaces both pending-stop queues with
empty lists, whichever phase issued the flush: the reducer sees only the
carried count. -/
theorem C9_flush_same_count {S : Type} (r : UserReducer S) (m : Option EffectsMap)
    (agg : Aggregate S) (N : Nat) :
    wrappedReducer r m agg (.flush N) =
      ⟨agg.state, agg.effectStateTuples.drop N, [],
        agg.layoutEffectStateTuples.drop N, []⟩ :=
  rfl

/-- C7: the claim says a function-form descriptor normalizes with `exec` being
the function itself; in the code the effects-map lookup also applies to the
function form (keyed by the function's name), so a map entry overrides the
function. -/
theorem C7_counterexample :
    (toEffectObject (.fn "foo" ⟨1, false, false⟩) (some [("foo", ⟨2, false, false⟩)])).exec ≠
      some ⟨1, false, false⟩ ∧
      (toEffectObject (.fn "foo" ⟨1, false, false⟩) (some [("foo", ⟨2, false, false⟩)])).exec =
        some ⟨2, false, false⟩ := by
  decide

/-- C7 (amended): normalization yields `type = d.type` for a record and the
function's identifier name for a function; for both forms `exec` is the
effects-map entry at that type when present, falling back to the record's
inline `exec` or to the function itself otherwise — the named-effect lookup
takes precedence over an inline `exec` and over the bare function. -/
theorem C7_amended (d : EffectDescriptor) (m : Option EffectsMap) :
    (toEffectObject d m).type =
        (match d with | .fn name _ => name | .record r => r.type) ∧
      (toEffectObject d m).exec =
        Option.or
          (mapLookup m (match d with | .fn name _ => name | .record r => r.type))
          (match d with | .fn _ f => some f | .record r => r.exec) := by
  cases d with
  | fn name f =>
    refine ⟨rfl, ?_⟩
    simp only [toEffectObject]
    cases mapLookup m name <;> simp [Option.or]
  | record r =>
    refine ⟨rfl, ?_⟩
    simp only [toEffectObject]
    cases mapLookup m r.type <;> simp [Option.or]

/-- C8: dispatching a bare string X and dispatching the event object
`{ type: X }` run the wrapped reducer on the same normalized event, hence
produce the same aggregate state (domain state, pending start tuples and
pending stop entities alike). -/
theorem C8_string_event {S : Type} (r : UserReducer S) (m : Option EffectsMap)
    (agg : Aggregate S) (x : String) :
    wrappedDispatch r m agg (.str x) = wrappedDispatch r m agg (.obj ⟨x, []⟩) :=
  rfl

/-- C10: a function-form initializer always produces exactly one pending-start
tuple in each of the normal and layout queues, each with the resolved initial
state as snapshot (even when the initializer called `exec` zero times, leaving
the entity list empty), and empty stop queues; a literal initial state yields
all four pending queues empty. -/
theorem C10_initial {S : Type} (m : Option EffectsMap) (g : InitGetter S) (s : S) :
    (initialStateAndEffects m (.getter g)).effectStateTuples.length = 1 ∧
      (initialStateAndEffects m (.getter g)).layoutEffectStateTuples.length = 1 ∧
      (∀ t ∈ (initialStateAndEffects m (.getter g)).effectStateTuples,
        t.1 = (initialStateAndEffects m (.getter g)).state) ∧
      (∀ t ∈ (initialStateAndEffects m (.getter g)).layoutEffectStateTuples,
        t.1 = (initialStateAndEffects m (.getter g)).state) ∧
      (initialStateAndEffects m (.getter g)).entitiesToStop = [] ∧
      (initialStateAndEffects m (.getter g)).layoutEntitiesToStop = [] ∧
      initialStateAndEffects m (.literal s) = ⟨s, [], [], [], []⟩ := by
  simp [initialStateAndEffects]

/-- C10 witness at a concrete zero-effect initializer and literal state. -/
theorem C10_initial_witness :
    (initialStateAndEffects none (.getter g0)).effectStateTuples.length = 1 ∧
      (initialStateAndEffects none (.getter g0)).layoutEffectStateTuples.length = 1 ∧
      (∀ t ∈ (initialStateAndEffects none (.getter g0)).effectStateTuples,
        t.1 = (initialStateAndEffects none (.getter g0)).state) ∧
      (∀ t ∈ (initialStateAndEffects none (.getter g0)).layoutEffectStateTuples,
        t.1 = (initialStateAndEffects none (.getter g0)).state) ∧
      (initialStateAndEffects none (.getter g0)).entitiesToStop = [] ∧
      (initialStateAndEffects none (.getter g0)).layoutEntitiesToStop = [] ∧
      initialStateAndEffects none (.literal 5) = ⟨5, [], [], [], []⟩ :=
  C10_initial none g0 5

/-- C6: at teardown, every entity of the driver's tracking set still in
`Started` status has `stop()` called on it, so an effect that captured a
cleanup at start has that cleanup run (its counter bumps and it ends
`Stopped`) without any explicit stop dispatch. -/
theorem C6_teardown (l : List Entity) (i : Nat) (h : i < l.length)
    (hstat : (l.get ⟨i, h⟩).status = EntityStatus.Started)
    (hcl : (l.get ⟨i, h⟩).cleanup = true) :
    (teardown l).get? i = some ((l.get ⟨i, h⟩).stop) ∧
      ((l.get ⟨i, h⟩).stop).status = EntityStatus.Stopped ∧
      ((l.get ⟨i, h⟩).stop).cleanupRuns = (l.get ⟨i, h⟩).cleanupRuns + 1 := by
  simp only [List.get_eq_getElem] at hstat hcl ⊢
  refine ⟨?_, by simp [Entity.stop, hcl], by simp [Entity.stop, hcl]⟩
  simp [teardown, List.get?_eq_getElem?, List.getElem?_map, List.getElem?_eq_getElem h, hstat]

/-- A singleton tracking set holding a started entity. -/
def l6 : List Entity := [eStarted]

/-- C6 witness at a concrete started entity with a captured cleanup. -/
theorem C6_teardown_witness :
    ((l6.get ⟨0, Nat.zero_lt_one⟩).status = EntityStatus.Started ∧
        (l6.get ⟨0, Nat.zero_lt_one⟩).cleanup = true) ∧
      ((teardown l6).get? 0 = some ((l6.get ⟨0, Nat.zero_lt_one⟩).stop) ∧
        ((l6.get ⟨0, Nat.zero_lt_one⟩).stop).status = EntityStatus.Stopped ∧
        ((l6.get ⟨0, Nat.zero_lt_one⟩).stop).cleanupRuns =
          (l6.get ⟨0, Nat.zero_lt_one⟩).cleanupRuns + 1) :=
  ⟨⟨by decide, by decide⟩, C6_teardown l6 0 Nat.zero_lt_one (by decide) (by decide)⟩

/-! Helper lemmas for the driver's start phase (claim C1). -/

/-- Starting never changes which exec function an entity holds. -/
lemma Entity.start_exec_pres (e : Entity) (s : Nat) : ((e.start s).1).exec = e.exec := by
  cases h : e.exec <;> simp [Entity.start, h] <;> split <;> rfl

/-- Starting an entity whose exec does not throw: the exec runs once, the
cleanup is captured and the status becomes `Started`, with no exception. -/
lemma Entity.start_of_nothrow (e : Entity) (f : ExecFn) (s : Nat)
    (hexec : e.exec = some f) (hnt : f.throws = false) :
    e.start s = ({ e with execRuns := e.execRuns + 1, cleanup := f.returnsCleanup, status := EntityStatus.Started }, false) := by
  simp [Entity.start, hexec, hnt]

/-- Executable no-throw property of one entity. -/
def entityNoThrow (e : Entity) : Bool :=
  match e.exec with
  | some f => !f.throws
  | none => true

/-- No entity of the driver's store has a synchronously throwing exec. -/
abbrev NoThrow (d : DriverState) : Prop :=
  ∀ e ∈ d.store, entityNoThrow e = true

/-- In a no-throw store, any entity found at an index has a non-throwing exec. -/
lemma noThrow_at {d : DriverState} (hnt : NoThrow d) {i : Nat} {e : Entity}
    (hget : d.store[i]? = some e) {f : ExecFn} (hexec : e.exec = some f) :
    f.throws = false := by
  obtain ⟨hl, rfl⟩ := List.getElem?_eq_some.mp hget
  have hm := hnt _ (List.getElem_mem hl)
  simpa [entityNoThrow, hexec] using hm

/-- The driver skips an entity that is not idle, leaving everything unchanged. -/
lemma startEntityAt_nonidle (d : DriverState) (s i : Nat) {e : Entity}
    (hget : d.store[i]? = some e) (h : e.status ≠ EntityStatus.Idle) :
    startEntityAt d s i = (d, false) := by
  simp [startEntityAt, hget, h]

/-- One driver start step leaves every other index of the store unchanged. -/
lemma startEntityAt_get_ne (d : DriverState) (s i j : Nat) (hne : j ≠ i) :
    (startEntityAt d s i).1.store[j]? = d.store[j]? := by
  unfold startEntityAt
  cases hg : d.store[i]? with
  | none => rfl
  | some e =>
    by_cases he : e.status = EntityStatus.Idle
    · simp [he, List.getElem?_set_ne (fun hij => hne hij.symm)]
    · simp [he]

/-- One driver start step leaves a non-idle entity untouched, wherever it sits. -/
lemma startEntityAt_pres_nonidle (d : DriverState) (s i j : Nat) {e : Entity}
    (hget : d.store[j]? = some e) (h : e.status ≠ EntityStatus.Idle) :
    (startEntityAt d s i).1.store[j]? = some e := by
  by_cases hji : j = i
  · subst hji
    rw [startEntityAt_nonidle d s j hget h]
    exact hget
  · rw [startEntityAt_get_ne d s i j hji, hget]

/-- One driver start step preserves the exec functions held in the store. -/
lemma startEntityAt_exec_pres (d : DriverState) (s i j : Nat) :
    ((startEntityAt d s i).1.store[j]?).map Entity.exec = (d.store[j]?).map Entity.exec := by
  unfold startEntityAt
  cases hg : d.store[i]? with
  | none => rfl
  | some e =>
    by_cases he : e.status = EntityStatus.Idle
    · by_cases hji : j = i
      · subst hji
        have hl : j < d.store.length := (List.getElem?_eq_some.mp hg).1
        simp [he, List.getElem?_set_eq_of_lt _ hl, hg, Entity.start_exec_pres]
      · simp [he, List.getElem?_set_ne (fun hij => hji hij.symm)]
    · simp [he]

/-- One driver start step preserves the no-throw property of the store. -/
lemma startEntityAt_noThrow (d : DriverState) (s i : Nat) (hnt : NoThrow d) :
    NoThrow (startEntityAt d s i).1 := by
  unfold startEntityAt
  cases hg : d.store[i]? with
  | none => exact hnt
  | some e =>
    dsimp only
    by_cases he : e.status = EntityStatus.Idle
    · rw [if_neg (fun hc => hc he)]
      intro a ha
      have ha2 : a ∈ d.store.set i (e.start s).1 := ha
      rcases List.mem_or_eq_of_mem_set ha2 with hm | rfl
      · exact hnt _ hm
      · have hmem : e ∈ d.store := by
          obtain ⟨hl, hEq⟩ := List.getElem?_eq_some.mp hg
          exact hEq ▸ List.getElem_mem hl
        have he2 := hnt _ hmem
        have hx : ((e.start s).1).exec = e.exec := Entity.start_exec_pres e s
        unfold entityNoThrow at he2 ⊢
        rw [hx]
        exact he2
    · rw [if_pos he]
      exact hnt

/-- In a no-throw store one driver start step never reports an exception. -/
lemma startEntityAt_false (d : DriverState) (s i : Nat) (hnt : NoThrow d) :
    (startEntityAt d s i).2 = false := by
  unfold startEntityAt
  cases hg : d.store[i]? with
  | none => rfl
  | some e =>
    dsimp only
    by_cases he : e.status = EntityStatus.Idle
    · rw [if_neg (fun hc => hc he)]
      cases hexec : e.exec with
      | none => simp [Entity.start, hexec]
      | some f =>
        have := noThrow_at hnt hg hexec
        simp [Entity.start, hexec, this]
    · rw [if_pos he]

/-- The driver's start step on an idle entity: add it to the tracking set and
run `entity.start`. -/
lemma startEntityAt_idle (d : DriverState) (s i : Nat) {e : Entity}
    (hget : d.store[i]? = some e) (hidle : e.status = EntityStatus.Idle) :
    startEntityAt d s i =
      ({ store := d.store.set i (e.start s).1, tracked := trackAdd d.tracked i }, (e.start s).2) := by
  unfold startEntityAt
  rw [hget]
  dsimp only
  rw [if_neg (fun hc => hc hidle)]

/-- Processing one tuple's entity list leaves a non-idle entity untouched. -/
lemma startTupleEntities_pres_nonidle (s : Nat) (ids : List Nat) :
    ∀ (d : DriverState) (j : Nat) (e : Entity), d.store[j]? = some e →
      e.status ≠ EntityStatus.Idle →
      (startTupleEntities d s ids).1.store[j]? = some e := by
  induction ids with
  | nil => intro d j e hget _; exact hget
  | cons i rest ih =>
    intro d j e hget h
    have hp := startEntityAt_pres_nonidle d s i j hget h
    cases hb : (startEntityAt d s i).2
    · simp only [startTupleEntities, hb, Bool.false_eq_true, if_false]
      exact ih _ _ _ hp h
    · simp only [startTupleEntities, hb, if_true]
      exact hp

/-- Processing one tuple's entity list preserves the no-throw property and, in
a no-throw store, reports no exception. -/
lemma startTupleEntities_noThrow (s : Nat) (ids : List Nat) :
    ∀ d : DriverState, NoThrow d →
      NoThrow (startTupleEntities d s ids).1 ∧ (startTupleEntities d s ids).2 = false := by
  induction ids with
  | nil => intro d hnt; exact ⟨hnt, rfl⟩
  | cons i rest ih =>
    intro d hnt
    have hb := startEntityAt_false d s i hnt
    have hn2 := startEntityAt_noThrow d s i hnt
    simp only [startTupleEntities, hb, Bool.false_eq_true, if_false]
    exact ih _ hn2

/-- Processing one tuple's entity list does not touch indices outside it. -/
lemma startTupleEntities_get_notmem (s : Nat) (ids : List Nat) :
    ∀ (d : DriverState) (j : Nat), j ∉ ids →
      (startTupleEntities d s ids).1.store[j]? = d.store[j]? := by
  induction ids with
  | nil => intro d j _; rfl
  | cons i rest ih =>
    intro d j hj
    have hji : j ≠ i := fun h => hj (h ▸ List.mem_cons_self i rest)
    have hrest : j ∉ rest := fun h => hj (List.mem_cons_of_mem i h)
    have hg := startEntityAt_get_ne d s i j hji
    cases hb : (startEntityAt d s i).2
    · simp only [startTupleEntities, hb, Bool.false_eq_true, if_false]
      rw [ih _ _ hrest, hg]
    · simp only [startTupleEntities, hb, if_true]
      exact hg

/-- An idle entity listed in a processed tuple is started exactly there: after
the tuple is processed it shows the started fields (exec ran once more, the
cleanup was captured, status `Started`). -/
lemma startTupleEntities_starts (s : Nat) (ids : List Nat) :
    ∀ (d : DriverState) (i : Nat) (e : Entity) (f : ExecFn), NoThrow d →
      d.store[i]? = some e → e.status = EntityStatus.Idle → e.exec = some f →
      i ∈ ids →
      (startTupleEntities d s ids).1.store[i]? =
        some { e with execRuns := e.execRuns + 1, cleanup := f.returnsCleanup, status := EntityStatus.Started } := by
  induction ids with
  | nil => intro d i e f _ _ _ _ hmem; cases hmem
  | cons k rest ih =>
    intro d i e f hnt hget hidle hexec hmem
    by_cases hki : k = i
    · subst hki
      have hf : f.throws = false := noThrow_at hnt hget hexec
      have hstart := Entity.start_of_nothrow e f s hexec hf
      have hstep := startEntityAt_idle d s k hget hidle
      have hb : (startEntityAt d s k).2 = false := by rw [hstep, hstart]
      have hl : k < d.store.length := (List.getElem?_eq_some.mp hget).1
      have hney : (startEntityAt d s k).1.store[k]? =
          some { e with execRuns := e.execRuns + 1, cleanup := f.returnsCleanup, status := EntityStatus.Started } := by
        rw [hstep, hstart]
        exact List.getElem?_set_eq_of_lt _ hl
      simp only [startTupleEntities, hb, Bool.false_eq_true, if_false]
      exact startTupleEntities_pres_nonidle s rest _ k _ hney (by simp)
    · have hmem2 : i ∈ rest := by
        rcases List.mem_cons.mp hmem with h | h
        · exact absurd h.symm hki
        · exact h
      have hget2 : (startEntityAt d s k).1.store[i]? = some e := by
        rw [startEntityAt_get_ne d s k i (fun h => hki h.symm), hget]
      have hnt2 := startEntityAt_noThrow d s k hnt
      have hb := startEntityAt_false d s k hnt
      simp only [startTupleEntities, hb, Bool.false_eq_true, if_false]
      exact ih _ _ _ _ hnt2 hget2 hidle hexec hmem2

/-- One driver start pass leaves a non-idle entity untouched. -/
lemma startPhase_pres_nonidle (pass : List (Nat × List Nat)) :
    ∀ (d : DriverState) (j : Nat) (e : Entity), d.store[j]? = some e →
      e.status ≠ EntityStatus.Idle →
      (startPhase d pass).1.store[j]? = some e := by
  induction pass with
  | nil => intro d j e hget _; exact hget
  | cons t rest ih =>
    intro d j e hget h
    have hp := startTupleEntities_pres_nonidle t.1 t.2 d j e hget h
    cases hb : (startTupleEntities d t.1 t.2).2
    · simp only [startPhase, hb, Bool.false_eq_true, if_false]
      exact ih _ _ _ hp h
    · simp only [startPhase, hb, if_true]
      exact hp

/-- One driver start pass preserves the no-throw property and reports no
exception when the store is no-throw. -/
lemma startPhase_noThrow (pass : List (Nat × List Nat)) :
    ∀ d : DriverState, NoThrow d →
      NoThrow (startPhase d pass).1 ∧ (startPhase d pass).2 = false := by
  induction pass with
  | nil => intro d hnt; exact ⟨hnt, rfl⟩
  | cons t rest ih =>
    intro d hnt
    have ht := startTupleEntities_noThrow t.1 t.2 d hnt
    simp only [startPhase, ht.2, Bool.false_eq_true, if_false]
    exact ih _ ht.1

/-- An idle entity listed in some tuple of the pass is started by the pass. -/
lemma startPhase_starts (pass : List (Nat × List Nat)) :
    ∀ (d : DriverState) (i : Nat) (e : Entity) (f : ExecFn), NoThrow d →
      d.store[i]? = some e → e.status = EntityStatus.Idle → e.exec = some f →
      (∃ t ∈ pass, i ∈ t.2) →
      (startPhase d pass).1.store[i]? =
        some { e with execRuns := e.execRuns + 1, cleanup := f.returnsCleanup, status := EntityStatus.Started } := by
  induction pass with
  | nil => intro d i e f _ _ _ _ hmem; rcases hmem with ⟨t, ht, _⟩; cases ht
  | cons t rest ih =>
    intro d i e f hnt hget hidle hexec hmem
    have hnoth := startTupleEntities_noThrow t.1 t.2 d hnt
    by_cases hit : i ∈ t.2
    · have hstarted := startTupleEntities_starts t.1 t.2 d i e f hnt hget hidle hexec hit
      simp only [startPhase, hnoth.2, Bool.false_eq_true, if_false]
      exact startPhase_pres_nonidle rest _ i _ hstarted (by simp)
    · have hmem2 : ∃ u ∈ rest, i ∈ u.2 := by
        rcases hmem with ⟨u, hu, hiu⟩
        rcases List.mem_cons.mp hu with h | h
        · exact absurd (h ▸ hiu) hit
        · exact ⟨u, h, hiu⟩
      have hget2 := startTupleEntities_get_notmem t.1 t.2 d i hit
      simp only [startPhase, hnoth.2, Bool.false_eq_true, if_false]
      exact ih _ _ _ _ hnoth.1 (hget2 ▸ hget) hidle hexec hmem2

/-- One driver start pass does not touch an index listed in none of its
tuples. -/
lemma startPhase_get_notinpass (pass : List (Nat × List Nat)) :
    ∀ (d : DriverState) (i : Nat), (¬∃ t ∈ pass, i ∈ t.2) →
      (startPhase d pass).1.store[i]? = d.store[i]? := by
  induction pass with
  | nil => intro d i _; rfl
  | cons t rest ih =>
    intro d i hni
    have hit : i ∉ t.2 := fun h => hni ⟨t, List.mem_cons_self t rest, h⟩
    have hrest : ¬∃ u ∈ rest, i ∈ u.2 := fun ⟨u, hu, hiu⟩ =>
      hni ⟨u, List.mem_cons_of_mem t hu, hiu⟩
    have hg := startTupleEntities_get_notmem t.1 t.2 d i hit
    cases hb : (startTupleEntities d t.1 t.2).2
    · simp only [startPhase, hb, Bool.false_eq_true, if_false]
      rw [ih _ _ hrest, hg]
    · simp only [startPhase, hb, if_true]
      exact hg

/-- A sequence of driver start passes leaves a non-idle entity untouched. -/
lemma runStartPasses_pres_nonidle (passes : List (List (Nat × List Nat))) :
    ∀ (d : DriverState) (j : Nat) (e : Entity), d.store[j]? = some e →
      e.status ≠ EntityStatus.Idle →
      (runStartPasses d passes).1.store[j]? = some e := by
  induction passes with
  | nil => intro d j e hget _; exact hget
  | cons pass rest ih =>
    intro d j e hget h
    have hp := startPhase_pres_nonidle pass d j e hget h
    cases hb : (startPhase d pass).2
    · simp only [runStartPasses, hb, Bool.false_eq_true, if_false]
      exact ih _ _ _ hp h
    · simp only [runStartPasses, hb, if_true]
      exact hp

/-- An idle entity observed by at least one pass is started and then left
alone: the started fields survive all later passes. -/
lemma runStartPasses_starts (passes : List (List (Nat × List Nat))) :
    ∀ (d : DriverState) (i : Nat) (e : Entity) (f : ExecFn), NoThrow d →
      d.store[i]? = some e → e.status = EntityStatus.Idle → e.exec = some f →
      (∃ pass ∈ passes, ∃ t ∈ pass, i ∈ t.2) →
      (runStartPasses d passes).1.store[i]? =
        some { e with execRuns := e.execRuns + 1, cleanup := f.returnsCleanup, status := EntityStatus.Started } := by
  induction passes with
  | nil => intro d i e f _ _ _ _ hmem; rcases hmem with ⟨p, hp, _⟩; cases hp
  | cons pass rest ih =>
    intro d i e f hnt hget hidle hexec hmem
    have hnoth := startPhase_noThrow pass d hnt
    by_cases hip : ∃ t ∈ pass, i ∈ t.2
    · have hstarted := startPhase_starts pass d i e f hnt hget hidle hexec hip
      simp only [runStartPasses, hnoth.2, Bool.false_eq_true, if_false]
      exact runStartPasses_pres_nonidle rest _ i _ hstarted (by simp)
    · have hmem2 : ∃ p ∈ rest, ∃ t ∈ p, i ∈ t.2 := by
        rcases hmem with ⟨p, hp, hip2⟩
        rcases List.mem_cons.mp hp with h | h
        · exact absurd (h ▸ hip2) hip
        · exact ⟨p, h, hip2⟩
      have hunmoved : (startPhase d pass).1.store[i]? = some e := by
        rw [startPhase_get_notinpass pass d i hip, hget]
      simp only [runStartPasses, hnoth.2, Bool.false_eq_true, if_false]
      exact ih _ _ _ _ hnoth.1 hunmoved hidle hexec hmem2

/-- C1: for every sequence of driver start-phase passes over the pending-start
tuples, an effect entity that begins idle with an unrun, non-throwing exec and
appears in at least one observed tuple has its exec run exactly once and ends
`Started` — even when the same pending-start tuple is observed by more than
one pass before the flush event lands, because the start phase skips every
entity whose status is not `Idle`. -/
theorem C1_at_most_once_start (d : DriverState) (passes : List (List (Nat × List Nat)))
    (i : Nat) (e : Entity) (f : ExecFn)
    (hnt : NoThrow d) (hget : d.store[i]? = some e)
    (hidle : e.status = EntityStatus.Idle) (hruns : e.execRuns = 0)
    (hexec : e.exec = some f)
    (hmem : ∃ pass ∈ passes, ∃ t ∈ pass, i ∈ t.2) :
    ∃ e2, (runStartPasses d passes).1.store[i]? = some e2 ∧
      e2.execRuns = 1 ∧ e2.status = EntityStatus.Started := by
  have h := runStartPasses_starts passes d i e f hnt hget hidle hexec hmem
  exact ⟨_, h, by simp [hruns], rfl⟩

/-- An idle entity with a non-throwing, cleanup-returning exec. -/
def eIdleC : Entity := createEffectEntity ⟨"c", some fCleanup, false, []⟩

/-- A driver state holding just that idle entity, nothing tracked yet. -/
def d1 : DriverState := ⟨[eIdleC], []⟩

/-- Two driver passes both observing the same pending-start tuple. -/
def passes1 : List (List (Nat × List Nat)) := [[(0, [0])], [(0, [0])]]

/-- C1 witness: two passes over the same tuple still run the exec once. -/
theorem C1_at_most_once_start_witness :
    (NoThrow d1 ∧ d1.store[0]? = some eIdleC ∧ eIdleC.status = EntityStatus.Idle ∧
        eIdleC.execRuns = 0 ∧ eIdleC.exec = some fCleanup ∧
        (∃ pass ∈ passes1, ∃ t ∈ pass, 0 ∈ t.2)) ∧
      ∃ e2, (runStartPasses d1 passes1).1.store[0]? = some e2 ∧
        e2.execRuns = 1 ∧ e2.status = EntityStatus.Started :=
  ⟨⟨by decide, rfl, rfl, rfl, rfl, by decide⟩,
    C1_at_most_once_start d1 passes1 0 eIdleC fCleanup (by decide) rfl rfl rfl rfl (by decide)⟩
